import Mathlib

/-!
Shallow embedding of the core declarations of `src/include/opendht/dht.h`
(class `dht::Dht` and its nested types), together with theorems settling
the specification claims about them.

Conventions of the embedding:
* `time_point` and durations are modelled as `Int`, counting seconds;
  `time_point::min()` is modelled by a large negative constant.
* 160-bit identifiers (`InfoHash`) are modelled as `Nat` (their unsigned
  big-endian integer value); XOR distance is `Nat.xor`.
* `std::shared_ptr<T>` that may be null is modelled as `Option T`.
* External classes declared in headers not present in the repository
  (`Node`, `NetworkEngine::Request`) are modelled by structures carrying
  exactly the state the embedded functions read, with boolean-valued
  time predicates for their member queries (`isExpired`, `pending`).
-/

namespace dht

/-- Model of `time_point`, seconds as `Int`. -/
abbrev time_point := Int

/-- Model of `time_point::min()`. -/
def time_point.minVal : Int := -(2 ^ 62)

/-- `Dht::REANNOUNCE_MARGIN` (`std::chrono::seconds {5}`, dht.h line 347). -/
def REANNOUNCE_MARGIN : Int := 5

/-- `Dht::LISTEN_EXPIRE_TIME` (`std::chrono::seconds {30}`, dht.h line 345). -/
def LISTEN_EXPIRE_TIME : Int := 30

/-- `Dht::SEARCH_NODES` (`{14}`, dht.h line 323). -/
def SEARCH_NODES : Nat := 14

/-- `Dht::DEFAULT_STORAGE_LIMIT` (`{1024 * 1024 * 64}`, dht.h line 72). -/
def DEFAULT_STORAGE_LIMIT : Nat := 1024 * 1024 * 64

/-- Model of `dht::Value` (declared in value.h, not in the repository):
only the fields the claims read are kept, `id` (`u64`) and the payload
size in bytes (`value->size()` is only used as a byte count here). -/
structure Value where
  id : Nat
  size : Nat
deriving Repr, DecidableEq

/-- Model of `dht::ValueType` (declared in value.h, not in the repository):
`{id, expiration}`. The store/edit policies default to accept-all per the
spec and are not read by any function embedded here. -/
structure ValueType where
  id : Nat
  expiration : Int
deriving Repr, DecidableEq

/-- Modelled from the spec: `ValueType::USER_DATA`, the default value type
(declared in value.h, not in the repository). The claims are symbolic in
its fields; the default expiration is taken as 10 minutes. -/
def ValueType.USER_DATA : ValueType := ⟨0, 600⟩

/-- Model of `NetworkEngine::Request` (declared in network_engine.h, not in
the repository): the fields read by dht.h are `reply_time`, `last_try`
and the query `pending(now)`, the latter modelled as a time predicate. -/
structure Request where
  reply_time : Int
  last_try : Int
  pendingAt : Int → Bool

namespace Node

/-- `Node::NODE_EXPIRE_TIME` (node.h, not in the repository). The claims
use it symbolically; its value is fixed at 10 minutes. -/
def NODE_EXPIRE_TIME : Int := 600

/-- `Node::MAX_RESPONSE_TIME` (node.h, not in the repository). The claims
use it symbolically; its value is fixed at 3 seconds. -/
def MAX_RESPONSE_TIME : Int := 3

end Node

/-- Model of `dht::Node` (declared in node.h, not in the repository): the
node id and the query `isExpired(now)`, modelled as a time predicate. -/
structure Node where
  id : Nat
  expiredAt : Int → Bool

/-- Model of `Dht::SearchNode` (dht.h lines 425-499). `acked` is the
`AnnounceStatusMap` (`std::map<Value::Id, std::shared_ptr<Request>>`),
modelled as an association list whose mapped values may be null. -/
structure SearchNode where
  node : Node
  last_get_reply : Int := time_point.minVal
  getStatus : Option Request := none
  listenStatus : Option Request := none
  acked : List (Nat × Option Request) := []
  token : List Nat := []
  candidate : Bool := false

namespace SearchNode

/-- `SearchNode::isSynced(now)` (dht.h lines 433-438):
`not node->isExpired(now) and not token.empty()
 and last_get_reply >= now - Node::NODE_EXPIRE_TIME`. -/
def isSynced (sn : SearchNode) (now : Int) : Bool :=
  !sn.node.expiredAt now && !sn.token.isEmpty &&
    decide (sn.last_get_reply ≥ now - Node.NODE_EXPIRE_TIME)

/-- `SearchNode::canGet(now, update)` (dht.h lines 439-446):
`not node->isExpired(now)
 and (now > last_get_reply + NODE_EXPIRE_TIME or update > last_get_reply)
 and (not getStatus or not getStatus->pending(now))`. -/
def canGet (sn : SearchNode) (now update : Int) : Bool :=
  !sn.node.expiredAt now &&
  (decide (now > sn.last_get_reply + Node.NODE_EXPIRE_TIME) ||
    decide (update > sn.last_get_reply)) &&
  (match sn.getStatus with
   | none => true
   | some st => !st.pendingAt now)

/-- `SearchNode::getAnnounceTime(ack, type)` (dht.h lines 462-469), on the
result of `acked.find(vid)`: `none` models `ack == acked.end()`,
`some none` models a null `ack->second`. -/
def getAnnounceTimeAck (ack : Option (Option Request)) (type : ValueType) : Int :=
  match ack with
  | none => time_point.minVal
  | some none => time_point.minVal
  | some (some req) =>
      max (req.reply_time + type.expiration - REANNOUNCE_MARGIN)
          (req.last_try + Node.MAX_RESPONSE_TIME)

/-- `SearchNode::getAnnounceTime(vid, type)` (dht.h lines 471-473):
`getAnnounceTime(acked.find(vid), type)`. -/
def getAnnounceTime (sn : SearchNode) (vid : Nat) (type : ValueType) : Int :=
  getAnnounceTimeAck (sn.acked.lookup vid) type

end SearchNode

/-! Registered value types (`Dht::types`, a `std::map<ValueType::Id, ValueType>`,
dht.h line 719), with `registerType` (lines 162-164) and `getType`
(lines 165-168). The map is modelled as a partial function. -/

/-- Model of the `Dht::types` member: `std::map<ValueType::Id, ValueType>`. -/
def TypeStore := Nat → Option ValueType

/-- `Dht::registerType(type)` (dht.h lines 162-164): `types[type.id] = type`. -/
def registerType (m : TypeStore) (ty : ValueType) : TypeStore :=
  fun i => if i = ty.id then some ty else m i

/-- `Dht::getType(type_id)` (dht.h lines 165-168): look `type_id` up in
`types`, returning `ValueType::USER_DATA` when absent. -/
def getType (m : TypeStore) (type_id : Nat) : ValueType :=
  (m type_id).getD ValueType.USER_DATA

/-- The `types` member of a freshly constructed `Dht` (empty map). -/
def TypeStore.empty : TypeStore := fun _ => none

/-- The `types` map reached by a sequence of `registerType` calls on a
freshly constructed `Dht`. -/
def applyRegisters (regs : List ValueType) : TypeStore :=
  regs.foldl registerType TypeStore.empty

/-! `Dht::bindGetCb(GetCallbackSimple)` (dht.h lines 81-90). The returned
vector callback loops over the values, returning `false` at the first
value on which `cb` returns `false`, else `true`. To reason about which
invocations of `cb` occur, the loop is embedded with an explicit trace of
the values `cb` was invoked on, in invocation order. -/

/-- The loop body of the callback returned by `Dht::bindGetCb` (dht.h
lines 84-89), instrumented with the trace of values `cb` is invoked on:
`for (const auto& v : values) if (not cb(v)) return false; return true`. -/
def bindGetCbRun (cb : Value → Bool) : List Value → Bool × List Value
  | [] => (true, [])
  | v :: vs =>
      if cb v then
        let r := bindGetCbRun cb vs
        (r.1, v :: r.2)
      else
        (false, [v])

/-- The callback returned by `Dht::bindGetCb(cb)` (dht.h lines 81-90),
applied to a value vector: its boolean result. -/
def bindGetCb (cb : Value → Bool) (values : List Value) : Bool :=
  (bindGetCbRun cb values).1

/-! Per-key storage (`Dht::Storage`, dht.h lines 643-707) and the
storage-related members of `Dht` (dht.h lines 734-737). The bodies of
`Storage::store`, `Storage::expire` and `Dht::storageStore` live in
dht.cpp, which is not in the repository; they are modelled from the spec
(section 4.4). -/

/-- Model of `Dht::ValueStorage` (dht.h lines 613-619): a stored value
with its insertion time. -/
structure ValueStorage where
  data : Value
  time : Int
deriving Repr, DecidableEq

/-- Model of `Dht::Storage` (dht.h lines 643-707), keeping the fields the
claims read: `id`, `values` and `total_size`. The listener fields are not
modelled (no claim reads them). `total_size` (a `size_t`) is modelled as
`Int`; the invariant `Storage.wf` keeps it equal to a non-negative sum. -/
structure Storage where
  id : Nat
  values : List ValueStorage := []
  total_size : Int := 0
deriving Repr, DecidableEq

/-- Sum of the payload sizes of a vector of stored values. -/
def sumSizes (l : List ValueStorage) : Int :=
  (l.map fun vs => (vs.data.size : Int)).sum

/-- The `value.id`s of a vector of stored values, in order. -/
def idsOf (l : List ValueStorage) : List Nat :=
  l.map fun vs => vs.data.id

/-- Per-key storage invariant (spec section 3, `Storage`): no two stored
values share `value.id`, and the sum of payload sizes equals `total_size`. -/
def Storage.wf (st : Storage) : Prop :=
  (idsOf st.values).Nodup ∧ st.total_size = sumSizes st.values

instance (st : Storage) : Decidable st.wf := by
  unfold Storage.wf; exact inferInstance

/-- Modelled from the spec: `Storage::store(value, created, size_left)`
(declared dht.h lines 696-697, body in dht.cpp, not in the repository).
Spec section 4.4: if a value with `value.id` exists, the (default
accept-all) edit policy replaces it; otherwise the (default accept-all)
store policy appends it; the store is rejected when accepting would
exceed `size_left`. Returns the changed value (null when no change
happened), the size delta, the value-count delta, and the updated
storage. -/
def Storage.store (st : Storage) (value : Value) (created : Int)
    (size_left : Int) : Option Value × Int × Int × Storage :=
  match st.values.find? (fun vs => vs.data.id == value.id) with
  | some old =>
      let size_diff : Int := (value.size : Int) - (old.data.size : Int)
      if size_diff ≤ size_left then
        (some value, size_diff, 0,
          { st with
            values := st.values.map fun vs =>
              if vs.data.id == value.id then ⟨value, created⟩ else vs,
            total_size := st.total_size + size_diff })
      else (none, 0, 0, st)
  | none =>
      if (value.size : Int) ≤ size_left then
        (some value, (value.size : Int), 1,
          { st with
            values := st.values ++ [⟨value, created⟩],
            total_size := st.total_size + (value.size : Int) })
      else (none, 0, 0, st)

/-- Modelled from the spec: `Storage::expire(types, now)` (declared dht.h
line 699, body in dht.cpp, not in the repository). Spec section 4.4: drop
the values whose `insert_time + type.expiration <= now`, returning the
(negative) size and count deltas and the updated storage. Remote-listener
expiry is not modelled (no claim reads the listeners). -/
def Storage.expire (st : Storage) (types : TypeStore) (now : Int) :
    Int × Int × Storage :=
  let keep := st.values.filter fun vs =>
    decide (now < vs.time + (getType types vs.data.id).expiration)
  let dropped := st.values.filter fun vs =>
    !decide (now < vs.time + (getType types vs.data.id).expiration)
  (-(sumSizes dropped), -(dropped.length : Int),
    { st with values := keep, total_size := st.total_size - sumSizes dropped })

/-- The storage-related members of `Dht` (dht.h lines 734-737): `store`,
`total_values`, `total_store_size` and `max_store_size`; the `size_t`
counters are modelled as `Int`. -/
structure DhtStore where
  store : List Storage := []
  total_values : Int := 0
  total_store_size : Int := 0
  max_store_size : Int := (DEFAULT_STORAGE_LIMIT : Int)
deriving Repr, DecidableEq

/-- The keys of the per-key storages, in order. -/
def storeIds (l : List Storage) : List Nat := l.map fun st => st.id

/-- Sum of the per-key `total_size` fields. -/
def sumTotalSizes (l : List Storage) : Int :=
  (l.map fun st => st.total_size).sum

/-- Global storage invariant (spec sections 4.4 and 8): the per-key
storages have distinct keys and each satisfies its per-key invariant,
the sum of the per-key `total_size` equals `total_store_size`, and
`total_store_size` never exceeds `max_store_size`. -/
def DhtStore.wf (d : DhtStore) : Prop :=
  (storeIds d.store).Nodup ∧ (∀ st ∈ d.store, st.wf) ∧
  d.total_store_size = sumTotalSizes d.store ∧
  d.total_store_size ≤ d.max_store_size

instance (d : DhtStore) : Decidable d.wf := by
  unfold DhtStore.wf; exact inferInstance

/-- Modelled from the spec: `Dht::storageStore(id, value, created)`
(declared dht.h line 782, body in dht.cpp, not in the repository),
restricted to the storage members of `Dht`. It locates the per-key
storage as `Dht::findStorage` does (dht.h lines 770-774), creating the
record when absent, calls `Storage::store` with the remaining global
budget `max_store_size - total_store_size`, and accumulates the returned
deltas into `total_store_size` and `total_values`; it returns whether a
change happened. -/
def DhtStore.storageStore (d : DhtStore) (key : Nat) (value : Value)
    (created : Int) : Bool × DhtStore :=
  match d.store.find? (fun st => st.id == key) with
  | some st =>
      let r := st.store value created (d.max_store_size - d.total_store_size)
      (r.1.isSome,
        { d with
          store := d.store.map fun s0 => if s0.id == key then r.2.2.2 else s0,
          total_store_size := d.total_store_size + r.2.1,
          total_values := d.total_values + r.2.2.1 })
  | none =>
      let st : Storage := { id := key }
      let r := st.store value created (d.max_store_size - d.total_store_size)
      (r.1.isSome,
        { d with
          store := d.store ++ [r.2.2.2],
          total_store_size := d.total_store_size + r.2.1,
          total_values := d.total_values + r.2.2.1 })

/-! Write tokens (spec section 3 "Write token" and section 4.6 "Token
minting"). The bodies of `Dht::rotateSecrets`, `Dht::makeToken` and
`Dht::tokenMatch` are in dht.cpp, not in the repository; they are
modelled from the spec. -/

/-- The secret members of `Dht` (dht.h lines 715-716): the current and
the previous rotating secret; the 8-byte arrays are modelled as `Nat`. -/
structure Secrets where
  secret : Nat
  oldsecret : Nat
deriving Repr, DecidableEq

/-- Modelled from the spec: the HMAC-like token derivation
`H(secret || remote_ip || ...)` (spec section 4.6). The hash is modelled
as the injective pairing of the secret with the remote address, which is
exactly the property the spec relies on: a token matches a secret and an
address precisely when it was derived from them. -/
def makeTokenWith (secret : Nat) (sa : Nat) : Nat × Nat := (secret, sa)

/-- Modelled from the spec: `Dht::makeToken(sa, old)` (declared dht.h
line 764): derive a token from the remote address and the current
(`old = false`) or the previous (`old = true`) secret. -/
def makeToken (s : Secrets) (sa : Nat) (old : Bool) : Nat × Nat :=
  makeTokenWith (if old then s.oldsecret else s.secret) sa

/-- Modelled from the spec: `Dht::tokenMatch(token, sa)` (declared dht.h
line 765): the token is accepted when it equals the token minted from
the current secret or the one minted from the previous secret. -/
def tokenMatch (s : Secrets) (token : Nat × Nat) (sa : Nat) : Bool :=
  token == makeToken s sa false || token == makeToken s sa true

/-- Modelled from the spec: `Dht::rotateSecrets()` (declared dht.h line
762): the previous secret is discarded, the current secret becomes the
previous one, and a fresh random secret (supplied as `fresh`) becomes
current. -/
def rotateSecrets (s : Secrets) (fresh : Nat) : Secrets :=
  ⟨fresh, s.secret⟩

/-- The rotation period, ~15 minutes in seconds (spec section 3). -/
def ROTATE_PERIOD : Int := 900

/-- The secrets after `k` rotations, the `i`-th rotation drawing the
fresh secret `fresh i`. -/
def secretsAfter (s : Secrets) (fresh : Nat → Nat) : Nat → Secrets
  | 0 => s
  | k + 1 => rotateSecrets (secretsAfter s fresh k) (fresh k)

/-- Number of whole rotation periods elapsed at time `t` (in seconds)
when rotations happen every `ROTATE_PERIOD` starting at `t = 0`. -/
def rotationsAt (t : Int) : Nat := (t / ROTATE_PERIOD).toNat

/-! The per-(key, family) search (`Dht::Search`, dht.h lines 532-611) and
its frontier insertion. The body of `Search::insertNode` is in dht.cpp,
not in the repository; it is modelled from the spec (section 4.5.1). -/

/-- XOR distance between two identifiers (spec section 3): bitwise XOR
read as an unsigned integer. -/
def xorDist (a b : Nat) : Nat := a ^^^ b

/-- Model of `Dht::Search` (dht.h lines 532-611), keeping the fields that
`Search::insertNode` reads: the target `id` and the frontier `nodes`. -/
structure Search where
  id : Nat
  nodes : List SearchNode := []

/-- The node ids of a frontier, in order. -/
def snIds (l : List SearchNode) : List Nat := l.map fun sn => sn.node.id

/-- The frontier is sorted by XOR distance to the target (spec section 3,
`Search`). -/
def frontierSorted (target : Nat) (l : List SearchNode) : Prop :=
  l.Pairwise fun a b => xorDist a.node.id target ≤ xorDist b.node.id target

instance (target : Nat) (l : List SearchNode) :
    Decidable (frontierSorted target l) := by
  unfold frontierSorted; exact inferInstance

/-- The frontier after inserting `x` at its XOR-distance insertion point
(the position of the first strictly farther entry) and truncating to
`SEARCH_NODES` entries (spec section 4.5.1). -/
def insertFrontier (target : Nat) (l : List SearchNode) (x : SearchNode) :
    List SearchNode :=
  List.take SEARCH_NODES
    (l.take (l.findIdx fun sn =>
        decide (xorDist x.node.id target < xorDist sn.node.id target)) ++
      x :: l.drop (l.findIdx fun sn =>
        decide (xorDist x.node.id target < xorDist sn.node.id target)))

/-- Modelled from the spec: `Search::insertNode(n, now, token)` (declared
dht.h line 559, body in dht.cpp, not in the repository). Spec section
4.5.1: if `n.id` is already present, refresh that entry's token and
reply time and return false; otherwise find the insertion point by XOR
distance to the target; if the frontier already holds `SEARCH_NODES`
entries and the new node is farther than all of them, refuse; otherwise
insert at the insertion point, truncating the frontier to
`SEARCH_NODES` entries. -/
def Search.insertNode (sr : Search) (n : Node) (now : Int) (token : List Nat) :
    Bool × Search :=
  if ∃ sn ∈ sr.nodes, sn.node.id = n.id then
    (false,
      { sr with nodes := sr.nodes.map fun sn =>
          if sn.node.id == n.id then
            { sn with token := token, last_get_reply := now }
          else sn })
  else
    if SEARCH_NODES ≤ sr.nodes.length ∧
        (sr.nodes.findIdx fun sn =>
          decide (xorDist n.id sr.id < xorDist sn.node.id sr.id)) =
          sr.nodes.length then
      (false, sr)
    else
      (true, { sr with nodes :=
          insertFrontier sr.id sr.nodes ⟨n, now, none, none, [], token, false⟩ })

/-! The routing table (`Dht::RoutingTable`, dht.h lines 386-423): an
ordered list of buckets, each covering the half-open range from its
`first` up to the next bucket's `first` (the last bucket up to the end
of the 160-bit space). `RoutingTable::contains` is inline in the header
(lines 400-403), with its bucket iterator rendered as an index.
`RoutingTable::split` (declared line 422) and the insertion step are in
dht.cpp, not in the repository; they are modelled from the spec
(sections 3 and 4.3). -/

/-- The size of the 160-bit identifier space. -/
def ID_SPACE : Nat := 2 ^ 160

/-- Model of `Dht::Bucket` (dht.h lines 371-384), keeping the fields the
claims read: the range's lower bound `first` and the held node ids
(`af`, `time` and the cached candidate are read by no claim). -/
structure Bucket where
  first : Nat
  nodes : List Nat := []
deriving Repr, DecidableEq

namespace RoutingTable

/-- `RoutingTable::contains(bucket, id)` (dht.h lines 400-403):
`InfoHash::cmp(bucket->first, id) <= 0 and (next(bucket) == end() or
InfoHash::cmp(id, next(bucket)->first) < 0)`, the bucket iterator
rendered as an index into the table; an out-of-range index yields
false. -/
def contains (t : List Bucket) (j : Nat) (id : Nat) : Bool :=
  match t[j]? with
  | none => false
  | some b =>
      decide (b.first ≤ id) &&
      (match t[j + 1]? with
       | none => true
       | some next => decide (id < next.first))

/-- The bucket lower bounds, in table order. -/
def firsts (t : List Bucket) : List Nat := t.map fun b => b.first

/-- Routing-table invariant (spec section 3, `Routing Table`): the bucket
lower bounds are strictly increasing, they all lie in the identifier
space, and the first bucket starts at 0; the buckets are then
non-overlapping half-open ranges covering the whole space, adjacent
buckets sharing their boundary. -/
def wf (t : List Bucket) : Prop :=
  (firsts t).head? = some 0 ∧
  List.Chain' (· < ·) (firsts t) ∧
  ∀ x ∈ firsts t, x < ID_SPACE

instance (t : List Bucket) : Decidable (wf t) :=
  inferInstanceAs (Decidable ((firsts t).head? = some 0 ∧
    List.Chain' (· < ·) (firsts t) ∧ ∀ x ∈ firsts t, x < ID_SPACE))

/-- The lower-bound part of the invariant, without the starting-at-zero
condition (used to reason about tails of the table). -/
def cb (t : List Bucket) : Prop :=
  List.Chain' (· < ·) (firsts t) ∧ ∀ x ∈ firsts t, x < ID_SPACE

/-- Modelled from the spec: splitting one bucket "in two equal parts"
(spec section 4.3 step 4). The bucket's range, bounded above by `hi`
(the next bucket's `first`, or the end of the space), is cut at its
midpoint and the nodes are redistributed by range; the split fails when
the range can no longer be halved. -/
def splitBucket (b : Bucket) (hi : Nat) : Option (Bucket × Bucket) :=
  if b.first < (b.first + hi) / 2 ∧ (b.first + hi) / 2 < hi then
    some (⟨b.first, b.nodes.filter fun nid => decide (nid < (b.first + hi) / 2)⟩,
          ⟨(b.first + hi) / 2,
            b.nodes.filter fun nid => decide ((b.first + hi) / 2 ≤ nid)⟩)
  else none

/-- Modelled from the spec: `RoutingTable::split` (declared dht.h line
422, body in dht.cpp, not in the repository) applied to the `j`-th
bucket of the table. -/
def split : List Bucket → Nat → Bool × List Bucket
  | [], _ => (false, [])
  | b :: rest, 0 =>
      (match splitBucket b (match rest.head? with
        | none => ID_SPACE
        | some nb => nb.first) with
       | some (b1, b2) => (true, b1 :: b2 :: rest)
       | none => (false, b :: rest))
  | b :: rest, j + 1 =>
      ((split rest j).1, b :: (split rest j).2)

/-- Modelled from the spec: the boundary-preserving part of routing-table
insertion (spec section 4.3 steps 2, 3 and 5): refreshing, inserting
into or caching at the `j`-th bucket changes that bucket's node list
only, never a bucket boundary. -/
def addToBucket : List Bucket → Nat → Nat → List Bucket
  | [], _, _ => []
  | b :: rest, 0, nid => { b with nodes := nid :: b.nodes } :: rest
  | b :: rest, j + 1, nid => b :: addToBucket rest j nid

end RoutingTable

/-! Concrete instances used by witnesses and counterexamples. -/

/-- A concrete acknowledged announce request. -/
def reqEx : Request := ⟨100, 50, fun _ => false⟩

/-- A concrete value type. -/
def tyEx : ValueType := ⟨1, 7⟩

/-- A concrete search node holding an acknowledged announce for value id 7. -/
def snAckEx : SearchNode :=
  { node := ⟨3, fun _ => false⟩, acked := [(7, some reqEx)] }

/-- A search node whose underlying node is expired but which holds a
non-empty token and a current get reply. -/
def snExpiredEx : SearchNode :=
  { node := ⟨1, fun _ => true⟩, last_get_reply := 0, token := [1] }

/-- A search node whose underlying node is expired, with no get in flight
and a stale last reply. -/
def snStaleExpiredEx : SearchNode :=
  { node := ⟨2, fun _ => true⟩ }

/-- A concrete per-key storage holding two values. -/
def stWitEx : Storage := ⟨1, [⟨⟨1, 4⟩, 0⟩, ⟨⟨2, 6⟩, 0⟩], 10⟩

/-- A concrete global storage state holding one per-key storage. -/
def dWitEx : DhtStore := ⟨[stWitEx], 2, 10, 100⟩

/-- A global storage state whose budget is exhausted (`total_store_size`
equals `max_store_size`). -/
def dFullEx : DhtStore := ⟨[⟨1, [⟨⟨5, 10⟩, 0⟩], 10⟩], 1, 10, 10⟩

/-- A concrete frontier entry with node id 1. -/
def snA : SearchNode := { node := ⟨1, fun _ => false⟩ }

/-- A concrete frontier entry with node id 2. -/
def snB : SearchNode := { node := ⟨2, fun _ => false⟩ }

/-- A concrete search with target 0 and a two-entry frontier. -/
def srEx : Search := ⟨0, [snA, snB]⟩

/-- A concrete routing table of two buckets covering the space. -/
def rtEx : List Bucket := [⟨0, []⟩, ⟨2, [5]⟩]

/-! ## Theorems -/

/-- C3: when an acknowledged announce request for `vid` exists
(`acked.find(vid)` succeeds with a non-null request), the re-announce
deadline `SearchNode::getAnnounceTime(vid, type)` equals
`max(last_ack.reply_time + type.expiration - REANNOUNCE_MARGIN,
     last_ack.last_try + Node::MAX_RESPONSE_TIME)`,
and `REANNOUNCE_MARGIN` is 5 seconds. -/
theorem getAnnounceTime_acked_formula (sn : SearchNode) (vid : Nat)
    (ty : ValueType) (req : Request)
    (h : sn.acked.lookup vid = some (some req)) :
    sn.getAnnounceTime vid ty =
      max (req.reply_time + ty.expiration - REANNOUNCE_MARGIN)
          (req.last_try + Node.MAX_RESPONSE_TIME) ∧
    REANNOUNCE_MARGIN = 5 := by
  refine ⟨?_, rfl⟩
  simp [SearchNode.getAnnounceTime, h, SearchNode.getAnnounceTimeAck]

/-- Witness for C3 at a concrete search node and value id. -/
theorem getAnnounceTime_acked_formula_witness :
    snAckEx.getAnnounceTime 7 tyEx =
      max (reqEx.reply_time + tyEx.expiration - REANNOUNCE_MARGIN)
          (reqEx.last_try + Node.MAX_RESPONSE_TIME) ∧
    REANNOUNCE_MARGIN = 5 :=
  getAnnounceTime_acked_formula snAckEx 7 tyEx reqEx rfl

/-- C5 (amended): `SearchNode::isSynced(now)` returns true exactly when
the node is not expired, it has returned a non-empty write token, and its
last get reply is recent (`last_get_reply >= now - NODE_EXPIRE_TIME`). -/
theorem isSynced_iff (sn : SearchNode) (now : Int) :
    sn.isSynced now = true ↔
      (sn.node.expiredAt now = false ∧ sn.token ≠ [] ∧
        sn.last_get_reply ≥ now - Node.NODE_EXPIRE_TIME) := by
  simp [SearchNode.isSynced, Bool.and_eq_true, Bool.not_eq_true',
    List.isEmpty_iff, decide_eq_true_iff, and_assoc]

/-- Counterexample to C5 as stated: a search node with a non-empty token
and a current get reply whose underlying node is expired is not synced,
so token presence and reply recency alone do not determine syncedness. -/
theorem isSynced_not_by_token_and_recency_alone :
    snExpiredEx.isSynced 0 = false ∧
    snExpiredEx.token ≠ [] ∧
    snExpiredEx.last_get_reply ≥ 0 - Node.NODE_EXPIRE_TIME := by
  refine ⟨rfl, by decide, by decide⟩

/-- C6 (amended): `SearchNode::canGet(now, update)` returns true exactly
when the node is not expired, its last reply is stale or the search has
new information since it, and no get request to the node is pending. -/
theorem canGet_iff (sn : SearchNode) (now update : Int) :
    sn.canGet now update = true ↔
      (sn.node.expiredAt now = false ∧
        (now > sn.last_get_reply + Node.NODE_EXPIRE_TIME ∨
          update > sn.last_get_reply) ∧
        (∀ st, sn.getStatus = some st → st.pendingAt now = false)) := by
  cases hst : sn.getStatus with
  | none =>
      simp [SearchNode.canGet, hst, Bool.and_eq_true, Bool.not_eq_true',
        Bool.or_eq_true, decide_eq_true_iff]
  | some st =>
      simp [SearchNode.canGet, hst, Bool.and_eq_true, Bool.not_eq_true',
        Bool.or_eq_true, decide_eq_true_iff, and_assoc]

/-- Counterexample to C6 as stated: a search node with no get in flight
and a stale last reply whose underlying node is expired is not gettable,
so in-flight status and staleness alone do not determine gettability. -/
theorem canGet_not_by_inflight_and_staleness_alone :
    snStaleExpiredEx.canGet 0 0 = false ∧
    snStaleExpiredEx.getStatus = none ∧
    (0 : Int) > snStaleExpiredEx.last_get_reply + Node.NODE_EXPIRE_TIME := by
  refine ⟨rfl, rfl, by decide⟩

/-- C9: `Dht::getType` falls back to `ValueType::USER_DATA` on any type id
never passed to `registerType`, and `registerType` followed by `getType`
on the registered id returns the registered type. -/
theorem getType_registerType_roundtrip (regs : List ValueType) (t : Nat)
    (h : ∀ ty' ∈ regs, ty'.id ≠ t) (m : TypeStore) (ty : ValueType) :
    getType (applyRegisters regs) t = ValueType.USER_DATA ∧
    getType (registerType m ty) ty.id = ty := by
  constructor
  · have key : ∀ (l : List ValueType) (m0 : TypeStore), (∀ ty' ∈ l, ty'.id ≠ t) →
        (l.foldl registerType m0) t = m0 t := by
      intro l
      induction l with
      | nil => intro m0 _; rfl
      | cons a l ih =>
          intro m0 hl
          simp only [List.foldl_cons]
          rw [ih _ (fun ty' hm => hl ty' (List.mem_cons_of_mem a hm))]
          exact if_neg (fun hh => hl a (List.mem_cons_self a l) hh.symm)
    rw [getType, applyRegisters, key regs TypeStore.empty h]
    rfl
  · rw [getType, registerType]
    simp

/-- Witness for C9 at a concrete registration history and a concrete
registration. -/
theorem getType_registerType_roundtrip_witness :
    getType (applyRegisters [⟨3, 60⟩]) 5 = ValueType.USER_DATA ∧
    getType (registerType TypeStore.empty ⟨4, 9⟩) 4 = ⟨4, 9⟩ :=
  getType_registerType_roundtrip [⟨3, 60⟩] 5 (by decide) TypeStore.empty ⟨4, 9⟩

/-- C10: the vector callback built by `Dht::bindGetCb(cb)` returns true
exactly when `cb` returns true on every element, and invokes `cb` on
exactly the prefix of the vector up to and including the first element on
which `cb` returns false (all of it when there is none), in order. -/
theorem bindGetCb_spec (cb : Value → Bool) (vs : List Value) :
    bindGetCb cb vs = vs.all cb ∧
    bindGetCbRun cb vs =
      (vs.all cb, vs.take (vs.findIdx (fun v => !cb v) + 1)) := by
  have h2 : bindGetCbRun cb vs =
      (vs.all cb, vs.take (vs.findIdx (fun v => !cb v) + 1)) := by
    induction vs with
    | nil => rfl
    | cons v vs ih =>
        by_cases hc : cb v
        · simp [bindGetCbRun, hc, ih, List.all_cons, List.findIdx_cons]
        · simp [bindGetCbRun, hc, List.all_cons, List.findIdx_cons]
  exact ⟨by rw [bindGetCb, h2], h2⟩


/-! Helper lemmas about value vectors and per-key storages. -/

theorem sumSizes_nil : sumSizes [] = 0 := rfl

theorem sumSizes_cons (a : ValueStorage) (l : List ValueStorage) :
    sumSizes (a :: l) = (a.data.size : Int) + sumSizes l := by
  simp [sumSizes]

theorem sumSizes_append (l1 l2 : List ValueStorage) :
    sumSizes (l1 ++ l2) = sumSizes l1 + sumSizes l2 := by
  simp [sumSizes]

theorem sumSizes_filter_split (l : List ValueStorage) (p : ValueStorage → Bool) :
    sumSizes (l.filter p) + sumSizes (l.filter fun x => !p x) = sumSizes l := by
  induction l with
  | nil => simp [sumSizes]
  | cons a l ih =>
      cases hp : p a <;> simp [List.filter_cons, hp, sumSizes_cons] <;> omega

theorem valueReplace_no_match (l : List ValueStorage) (v : Value) (c : Int)
    (h : ∀ vs ∈ l, vs.data.id ≠ v.id) :
    (l.map fun vs => if vs.data.id == v.id then ValueStorage.mk v c else vs) = l := by
  induction l with
  | nil => rfl
  | cons a l ih =>
      have ha : ¬((a.data.id == v.id) = true) := by
        simpa using h a (List.mem_cons_self a l)
      simp only [List.map_cons, if_neg ha]
      rw [ih fun vs hm => h vs (List.mem_cons_of_mem a hm)]

theorem idsOf_valueReplace (l : List ValueStorage) (v : Value) (c : Int) :
    idsOf (l.map fun vs => if vs.data.id == v.id then ValueStorage.mk v c else vs) =
      idsOf l := by
  induction l with
  | nil => rfl
  | cons a l ih =>
      by_cases h : a.data.id = v.id
      · have hpa : (a.data.id == v.id) = true := by simpa using h
        simp only [idsOf, List.map_cons, if_pos hpa]
        rw [h]
        exact congrArg (List.cons v.id) (by simpa [idsOf] using ih)
      · have ha : ¬((a.data.id == v.id) = true) := by simpa using h
        simp only [idsOf, List.map_cons, if_neg ha]
        exact congrArg (List.cons a.data.id) (by simpa [idsOf] using ih)

theorem sumSizes_valueReplace (l : List ValueStorage) (v : Value) (c : Int)
    (old : ValueStorage)
    (hfind : l.find? (fun vs => vs.data.id == v.id) = some old)
    (hnd : (idsOf l).Nodup) :
    sumSizes (l.map fun vs => if vs.data.id == v.id then ValueStorage.mk v c else vs) =
      sumSizes l + ((v.size : Int) - (old.data.size : Int)) := by
  induction l with
  | nil => simp at hfind
  | cons a l ih =>
      simp only [idsOf, List.map_cons, List.nodup_cons] at hnd
      by_cases h : a.data.id = v.id
      · have hpa : (a.data.id == v.id) = true := by simpa using h
        have hstep : List.find? (fun vs => vs.data.id == v.id) (a :: l) = some a :=
          @List.find?_cons_of_pos _ (fun vs => vs.data.id == v.id) a l hpa
        rw [hstep, Option.some.injEq] at hfind
        subst hfind
        have hrest : ∀ vs ∈ l, vs.data.id ≠ v.id := by
          intro vs hm hv
          have hmem : vs.data.id ∈ List.map (fun x => x.data.id) l :=
            List.mem_map_of_mem _ hm
          rw [hv, ← h] at hmem
          exact hnd.1 hmem
        simp only [List.map_cons, if_pos hpa]
        rw [valueReplace_no_match l v c hrest, sumSizes_cons, sumSizes_cons]
        have hproj : (ValueStorage.mk v c).data.size = v.size := rfl
        rw [hproj]
        omega
      · have ha : ¬((a.data.id == v.id) = true) := by simpa using h
        rw [@List.find?_cons_of_neg _ (fun vs => vs.data.id == v.id) a l ha] at hfind
        simp only [List.map_cons, if_neg ha]
        rw [sumSizes_cons, sumSizes_cons, ih hfind hnd.2]
        omega

/-! Case equations for `Storage.store`. -/

theorem Storage.store_found_accept (st : Storage) (v : Value) (c sl : Int)
    (old : ValueStorage)
    (hf : st.values.find? (fun vs => vs.data.id == v.id) = some old)
    (hle : (v.size : Int) - (old.data.size : Int) ≤ sl) :
    st.store v c sl =
      (some v, (v.size : Int) - (old.data.size : Int), 0,
        { st with
          values := st.values.map fun vs =>
            if vs.data.id == v.id then ⟨v, c⟩ else vs,
          total_size := st.total_size + ((v.size : Int) - (old.data.size : Int)) }) := by
  unfold Storage.store
  rw [hf]
  simp [hle]

theorem Storage.store_found_reject (st : Storage) (v : Value) (c sl : Int)
    (old : ValueStorage)
    (hf : st.values.find? (fun vs => vs.data.id == v.id) = some old)
    (hgt : ¬((v.size : Int) - (old.data.size : Int) ≤ sl)) :
    st.store v c sl = (none, 0, 0, st) := by
  unfold Storage.store
  rw [hf]
  simp [hgt]

theorem Storage.store_new_accept (st : Storage) (v : Value) (c sl : Int)
    (hf : st.values.find? (fun vs => vs.data.id == v.id) = none)
    (hle : (v.size : Int) ≤ sl) :
    st.store v c sl =
      (some v, (v.size : Int), 1,
        { st with
          values := st.values ++ [⟨v, c⟩],
          total_size := st.total_size + (v.size : Int) }) := by
  unfold Storage.store
  rw [hf]
  simp [hle]

theorem Storage.store_new_reject (st : Storage) (v : Value) (c sl : Int)
    (hf : st.values.find? (fun vs => vs.data.id == v.id) = none)
    (hgt : ¬((v.size : Int) ≤ sl)) :
    st.store v c sl = (none, 0, 0, st) := by
  unfold Storage.store
  rw [hf]
  simp [hgt]

/-! Behaviour of `Storage.store` and `Storage.expire` with respect to the
per-key invariant. -/

theorem Storage.store_delta (st : Storage) (v : Value) (c sl : Int) :
    (st.store v c sl).2.2.2.id = st.id ∧
    (st.store v c sl).2.2.2.total_size = st.total_size + (st.store v c sl).2.1 ∧
    ((st.store v c sl).2.1 ≤ sl ∨ st.store v c sl = (none, 0, 0, st)) := by
  cases hf : st.values.find? (fun vs => vs.data.id == v.id) with
  | some old =>
      by_cases hle : (v.size : Int) - (old.data.size : Int) ≤ sl
      · rw [Storage.store_found_accept st v c sl old hf hle]
        exact ⟨rfl, by simp, Or.inl hle⟩
      · rw [Storage.store_found_reject st v c sl old hf hle]
        exact ⟨rfl, by simp, Or.inr rfl⟩
  | none =>
      by_cases hle : (v.size : Int) ≤ sl
      · rw [Storage.store_new_accept st v c sl hf hle]
        exact ⟨rfl, by simp, Or.inl hle⟩
      · rw [Storage.store_new_reject st v c sl hf hle]
        exact ⟨rfl, by simp, Or.inr rfl⟩

theorem Storage.store_wf_preserved (st : Storage) (v : Value) (c sl : Int)
    (h : st.wf) : (st.store v c sl).2.2.2.wf := by
  obtain ⟨hnd, hsum⟩ := h
  cases hf : st.values.find? (fun vs => vs.data.id == v.id) with
  | some old =>
      by_cases hle : (v.size : Int) - (old.data.size : Int) ≤ sl
      · rw [Storage.store_found_accept st v c sl old hf hle]
        refine ⟨?_, ?_⟩
        · show (idsOf (st.values.map fun vs =>
            if vs.data.id == v.id then ValueStorage.mk v c else vs)).Nodup
          rw [idsOf_valueReplace]
          exact hnd
        · show st.total_size + _ = sumSizes _
          rw [sumSizes_valueReplace st.values v c old hf hnd]
          omega
      · rw [Storage.store_found_reject st v c sl old hf hle]
        exact ⟨hnd, hsum⟩
  | none =>
      by_cases hle : (v.size : Int) ≤ sl
      · rw [Storage.store_new_accept st v c sl hf hle]
        have hnm : v.id ∉ idsOf st.values := by
          intro hmem
          obtain ⟨vs, hvs, hid⟩ := List.mem_map.mp hmem
          have hnp := List.find?_eq_none.mp hf vs hvs
          simp [hid] at hnp
        refine ⟨?_, ?_⟩
        · show (idsOf (st.values ++ [ValueStorage.mk v c])).Nodup
          have : idsOf (st.values ++ [ValueStorage.mk v c]) =
              idsOf st.values ++ [v.id] := by
            simp [idsOf]
          rw [this, List.nodup_append]
          exact ⟨hnd, List.nodup_singleton _,
            by simpa [List.disjoint_singleton] using hnm⟩
        · show st.total_size + _ = sumSizes _
          rw [sumSizes_append, sumSizes_cons, sumSizes_nil]
          have hproj : (ValueStorage.mk v c).data.size = v.size := rfl
          rw [hproj]
          omega
      · rw [Storage.store_new_reject st v c sl hf hle]
        exact ⟨hnd, hsum⟩

theorem Storage.store_reject_new (st : Storage) (v : Value) (c sl : Int)
    (hsl : sl ≤ 0) (hnone : ∀ vs ∈ st.values, vs.data.id ≠ v.id)
    (hpos : 0 < v.size) :
    st.store v c sl = (none, 0, 0, st) := by
  have hf : st.values.find? (fun vs => vs.data.id == v.id) = none :=
    List.find?_eq_none.mpr fun vs hvs => by simpa using hnone vs hvs
  exact Storage.store_new_reject st v c sl hf (by omega)

theorem Storage.expire_wf_preserved (st : Storage) (types : TypeStore)
    (now : Int) (h : st.wf) : (st.expire types now).2.2.wf := by
  obtain ⟨hnd, hsum⟩ := h
  have hsplit : sumSizes (st.values.filter fun vs =>
        decide (now < vs.time + (getType types vs.data.id).expiration)) +
      sumSizes (st.values.filter fun vs =>
        !decide (now < vs.time + (getType types vs.data.id).expiration)) =
      sumSizes st.values :=
    sumSizes_filter_split st.values _
  unfold Storage.expire Storage.wf
  dsimp only
  refine ⟨?_, by omega⟩
  exact List.Nodup.sublist ((List.filter_sublist st.values).map _) hnd

/-! Helper lemmas about lists of per-key storages. -/

theorem sumTotalSizes_cons (a : Storage) (l : List Storage) :
    sumTotalSizes (a :: l) = a.total_size + sumTotalSizes l := by
  simp [sumTotalSizes]

theorem sumTotalSizes_append (l1 l2 : List Storage) :
    sumTotalSizes (l1 ++ l2) = sumTotalSizes l1 + sumTotalSizes l2 := by
  simp [sumTotalSizes]

theorem storageReplace_no_match (l : List Storage) (key : Nat) (st' : Storage)
    (h : ∀ s ∈ l, s.id ≠ key) :
    (l.map fun s0 => if s0.id == key then st' else s0) = l := by
  induction l with
  | nil => rfl
  | cons a l ih =>
      have ha : ¬((a.id == key) = true) := by
        simpa using h a (List.mem_cons_self a l)
      simp only [List.map_cons, if_neg ha]
      rw [ih fun s hm => h s (List.mem_cons_of_mem a hm)]

theorem storeIds_replace (l : List Storage) (key : Nat) (st' : Storage)
    (hid : st'.id = key) :
    storeIds (l.map fun s0 => if s0.id == key then st' else s0) = storeIds l := by
  induction l with
  | nil => rfl
  | cons a l ih =>
      by_cases h : a.id = key
      · have hpa : (a.id == key) = true := by simpa using h
        simp only [storeIds, List.map_cons, if_pos hpa]
        rw [hid, h]
        exact congrArg (List.cons key) (by simpa [storeIds] using ih)
      · have ha : ¬((a.id == key) = true) := by simpa using h
        simp only [storeIds, List.map_cons, if_neg ha]
        exact congrArg (List.cons a.id) (by simpa [storeIds] using ih)

theorem sumTotalSizes_replace (l : List Storage) (key : Nat) (st st' : Storage)
    (hfind : l.find? (fun s => s.id == key) = some st)
    (hnd : (storeIds l).Nodup) :
    sumTotalSizes (l.map fun s0 => if s0.id == key then st' else s0) =
      sumTotalSizes l - st.total_size + st'.total_size := by
  induction l with
  | nil => simp at hfind
  | cons a l ih =>
      simp only [storeIds, List.map_cons, List.nodup_cons] at hnd
      by_cases h : a.id = key
      · have hpa : (a.id == key) = true := by simpa using h
        have hstep : List.find? (fun s => s.id == key) (a :: l) = some a :=
          @List.find?_cons_of_pos _ (fun s => s.id == key) a l hpa
        rw [hstep, Option.some.injEq] at hfind
        subst hfind
        have hrest : ∀ s ∈ l, s.id ≠ key := by
          intro s hm hv
          have hmem : s.id ∈ List.map (fun x => x.id) l :=
            List.mem_map_of_mem _ hm
          rw [hv, ← h] at hmem
          exact hnd.1 hmem
        simp only [List.map_cons, if_pos hpa]
        rw [storageReplace_no_match l key st' hrest,
          sumTotalSizes_cons, sumTotalSizes_cons]
        omega
      · have ha : ¬((a.id == key) = true) := by simpa using h
        rw [@List.find?_cons_of_neg _ (fun s => s.id == key) a l ha] at hfind
        simp only [List.map_cons, if_neg ha]
        rw [sumTotalSizes_cons, sumTotalSizes_cons, ih hfind hnd.2]
        omega

theorem storageReplace_self (l : List Storage) (key : Nat) (st : Storage)
    (hfind : l.find? (fun s => s.id == key) = some st)
    (hnd : (storeIds l).Nodup) :
    (l.map fun s0 => if s0.id == key then st else s0) = l := by
  induction l with
  | nil => simp at hfind
  | cons a l ih =>
      simp only [storeIds, List.map_cons, List.nodup_cons] at hnd
      by_cases h : a.id = key
      · have hpa : (a.id == key) = true := by simpa using h
        have hstep : List.find? (fun s => s.id == key) (a :: l) = some a :=
          @List.find?_cons_of_pos _ (fun s => s.id == key) a l hpa
        rw [hstep, Option.some.injEq] at hfind
        subst hfind
        have hrest : ∀ s ∈ l, s.id ≠ key := by
          intro s hm hv
          have hmem : s.id ∈ List.map (fun x => x.id) l :=
            List.mem_map_of_mem _ hm
          rw [hv, ← h] at hmem
          exact hnd.1 hmem
        simp only [List.map_cons, if_pos hpa]
        rw [storageReplace_no_match l key a hrest]
      · have ha : ¬((a.id == key) = true) := by simpa using h
        rw [@List.find?_cons_of_neg _ (fun s => s.id == key) a l ha] at hfind
        simp only [List.map_cons, if_neg ha]
        rw [ih hfind hnd.2]

theorem emptyStorage_wf (key : Nat) : (Storage.mk key [] 0).wf :=
  ⟨List.Pairwise.nil, rfl⟩

/-! Case equations for `DhtStore.storageStore`. -/

theorem DhtStore.storageStore_found (d : DhtStore) (key : Nat) (v : Value)
    (c : Int) (st : Storage)
    (hf : d.store.find? (fun s => s.id == key) = some st) :
    d.storageStore key v c =
      ((st.store v c (d.max_store_size - d.total_store_size)).1.isSome,
        { d with
          store := d.store.map fun s0 => if s0.id == key
            then (st.store v c (d.max_store_size - d.total_store_size)).2.2.2
            else s0,
          total_store_size := d.total_store_size +
            (st.store v c (d.max_store_size - d.total_store_size)).2.1,
          total_values := d.total_values +
            (st.store v c (d.max_store_size - d.total_store_size)).2.2.1 }) := by
  unfold DhtStore.storageStore
  rw [hf]

theorem DhtStore.storageStore_new (d : DhtStore) (key : Nat) (v : Value)
    (c : Int) (hf : d.store.find? (fun s => s.id == key) = none) :
    d.storageStore key v c =
      (((Storage.mk key [] 0).store v c
          (d.max_store_size - d.total_store_size)).1.isSome,
        { d with
          store := d.store ++ [((Storage.mk key [] 0).store v c
            (d.max_store_size - d.total_store_size)).2.2.2],
          total_store_size := d.total_store_size +
            ((Storage.mk key [] 0).store v c
              (d.max_store_size - d.total_store_size)).2.1,
          total_values := d.total_values +
            ((Storage.mk key [] 0).store v c
              (d.max_store_size - d.total_store_size)).2.2.1 }) := by
  unfold DhtStore.storageStore
  rw [hf]

/-! Behaviour of `DhtStore.storageStore` with respect to the global
storage invariant. -/

theorem DhtStore.storageStore_wf_preserved (d : DhtStore) (key : Nat)
    (v : Value) (c : Int) (hwf : d.wf) : (d.storageStore key v c).2.wf := by
  obtain ⟨hnd, hall, hsum, hle⟩ := hwf
  cases hf : d.store.find? (fun s => s.id == key) with
  | some st =>
      have hstmem := List.mem_of_find?_eq_some hf
      have hstid : st.id = key := by simpa using List.find?_some hf
      obtain ⟨hid, htot, hacc⟩ :=
        Storage.store_delta st v c (d.max_store_size - d.total_store_size)
      rw [DhtStore.storageStore_found d key v c st hf]
      refine ⟨?_, ?_, ?_, ?_⟩
      · dsimp only
        rw [storeIds_replace _ key _ (hid.trans hstid)]
        exact hnd
      · dsimp only
        intro x hx
        obtain ⟨s0, hs0, hx0⟩ := List.mem_map.mp hx
        by_cases h0 : (s0.id == key) = true
        · rw [if_pos h0] at hx0
          rw [← hx0]
          exact Storage.store_wf_preserved st v c _ (hall st hstmem)
        · rw [if_neg h0] at hx0
          rw [← hx0]
          exact hall s0 hs0
      · dsimp only
        rw [sumTotalSizes_replace d.store key st _ hf hnd]
        omega
      · dsimp only
        rcases hacc with hacc | hacc
        · omega
        · rw [hacc]
          dsimp only
          omega
  | none =>
      obtain ⟨hid, htot, hacc⟩ :=
        Storage.store_delta (Storage.mk key [] 0) v c
          (d.max_store_size - d.total_store_size)
      have hid' : ((Storage.mk key [] 0).store v c
          (d.max_store_size - d.total_store_size)).2.2.2.id = key := hid
      have hkey : key ∉ storeIds d.store := by
        intro hmem
        obtain ⟨s0, hs0, h0⟩ := List.mem_map.mp hmem
        have hnp := List.find?_eq_none.mp hf s0 hs0
        simp [h0] at hnp
      rw [DhtStore.storageStore_new d key v c hf]
      refine ⟨?_, ?_, ?_, ?_⟩
      · dsimp only
        have hids : storeIds (d.store ++ [((Storage.mk key [] 0).store v c
            (d.max_store_size - d.total_store_size)).2.2.2]) =
            storeIds d.store ++ [key] := by
          simp [storeIds, hid']
        rw [hids, List.nodup_append]
        exact ⟨hnd, List.nodup_singleton _,
          by simpa [List.disjoint_singleton] using hkey⟩
      · dsimp only
        intro x hx
        rcases List.mem_append.mp hx with hx | hx
        · exact hall x hx
        · have hx' : x = ((Storage.mk key [] 0).store v c
              (d.max_store_size - d.total_store_size)).2.2.2 := by
            simpa using hx
          rw [hx']
          exact Storage.store_wf_preserved _ v c _ (emptyStorage_wf key)
      · dsimp only
        rw [sumTotalSizes_append]
        have hsingle : sumTotalSizes [((Storage.mk key [] 0).store v c
            (d.max_store_size - d.total_store_size)).2.2.2] =
            ((Storage.mk key [] 0).store v c
              (d.max_store_size - d.total_store_size)).2.2.2.total_size := by
          simp [sumTotalSizes]
        rw [hsingle, htot]
        dsimp only
        omega
      · dsimp only
        rcases hacc with hacc | hacc
        · omega
        · rw [hacc]
          dsimp only
          omega

theorem DhtStore.storageStore_reject_when_full (d : DhtStore) (key : Nat)
    (v : Value) (c : Int) (hwf : d.wf)
    (hfull : d.max_store_size ≤ d.total_store_size)
    (hnew : ∀ st ∈ d.store, st.id = key → ∀ vs ∈ st.values, vs.data.id ≠ v.id)
    (hpos : 0 < v.size) :
    (d.storageStore key v c).1 = false ∧
    (d.storageStore key v c).2.total_store_size = d.total_store_size ∧
    (d.storageStore key v c).2.total_values = d.total_values ∧
    ∀ st ∈ d.store, st ∈ (d.storageStore key v c).2.store := by
  cases hf : d.store.find? (fun s => s.id == key) with
  | some st =>
      have hstmem := List.mem_of_find?_eq_some hf
      have hstid : st.id = key := by simpa using List.find?_some hf
      have hrej := Storage.store_reject_new st v c
        (d.max_store_size - d.total_store_size) (by omega)
        (hnew st hstmem hstid) hpos
      rw [DhtStore.storageStore_found d key v c st hf, hrej]
      refine ⟨rfl, by dsimp only; omega, by dsimp only; omega, ?_⟩
      dsimp only
      rw [storageReplace_self d.store key st hf hwf.1]
      intro s0 hs0
      exact hs0
  | none =>
      have hrej := Storage.store_reject_new (Storage.mk key [] 0) v c
        (d.max_store_size - d.total_store_size) (by omega)
        (by intro vs hv; simp at hv) hpos
      rw [DhtStore.storageStore_new d key v c hf, hrej]
      refine ⟨rfl, by dsimp only; omega, by dsimp only; omega, ?_⟩
      dsimp only
      intro s0 hs0
      exact List.mem_append_left _ hs0

/-- C8: within a per-key storage satisfying its invariant — no two stored
values share `value.id` and the sum of payload sizes equals `total_size`
(together, `Storage.wf`) — both `Storage::store` and `Storage::expire`
preserve the invariant. -/
theorem storage_store_expire_preserve_invariants (st : Storage) (v : Value)
    (created size_left : Int) (types : TypeStore) (now : Int) (h : st.wf) :
    ((st.store v created size_left).2.2.2).wf ∧
    ((st.expire types now).2.2).wf :=
  ⟨Storage.store_wf_preserved st v created size_left h,
   Storage.expire_wf_preserved st types now h⟩

/-- Witness for C8 at a concrete storage, store and expiry. -/
theorem storage_store_expire_preserve_invariants_witness :
    ((stWitEx.store (Value.mk 3 5) 2 100).2.2.2).wf ∧
    ((stWitEx.expire TypeStore.empty 500).2.2).wf :=
  storage_store_expire_preserve_invariants stWitEx (Value.mk 3 5) 2 100
    TypeStore.empty 500 (by decide)

/-- C1 (amended): the global storage invariant — the sum of the per-key
`total_size` fields equals `total_store_size`, which never exceeds
`max_store_size` (default `DEFAULT_STORAGE_LIMIT` = 1024*1024*64 bytes =
64 MiB) — is preserved by the store path; and when the budget is
exhausted, a store of a value that is new for its key and of positive
size is rejected with no change to the totals, and every pre-existing
per-key record with all its values is retained (no eviction). A same-id
replacement that does not increase the stored size may still be
accepted. -/
theorem storageStore_budget_invariant (d : DhtStore) (key : Nat) (v : Value)
    (created : Int) (hwf : d.wf) :
    DEFAULT_STORAGE_LIMIT = 1024 * 1024 * 64 ∧
    (d.storageStore key v created).2.wf ∧
    (d.max_store_size ≤ d.total_store_size →
      (∀ st ∈ d.store, st.id = key → ∀ vs ∈ st.values, vs.data.id ≠ v.id) →
      0 < v.size →
      (d.storageStore key v created).1 = false ∧
      (d.storageStore key v created).2.total_store_size = d.total_store_size ∧
      (d.storageStore key v created).2.total_values = d.total_values ∧
      ∀ st ∈ d.store, st ∈ (d.storageStore key v created).2.store) :=
  ⟨rfl, DhtStore.storageStore_wf_preserved d key v created hwf,
   fun hfull hnew hpos =>
     DhtStore.storageStore_reject_when_full d key v created hwf hfull hnew hpos⟩

/-- Witness for C1 at a concrete global storage state and store. -/
theorem storageStore_budget_invariant_witness :
    DEFAULT_STORAGE_LIMIT = 1024 * 1024 * 64 ∧
    (dWitEx.storageStore 2 (Value.mk 7 3) 0).2.wf ∧
    (dWitEx.max_store_size ≤ dWitEx.total_store_size →
      (∀ st ∈ dWitEx.store, st.id = 2 →
        ∀ vs ∈ st.values, vs.data.id ≠ (Value.mk 7 3).id) →
      0 < (Value.mk 7 3).size →
      (dWitEx.storageStore 2 (Value.mk 7 3) 0).1 = false ∧
      (dWitEx.storageStore 2 (Value.mk 7 3) 0).2.total_store_size =
        dWitEx.total_store_size ∧
      (dWitEx.storageStore 2 (Value.mk 7 3) 0).2.total_values =
        dWitEx.total_values ∧
      ∀ st ∈ dWitEx.store,
        st ∈ (dWitEx.storageStore 2 (Value.mk 7 3) 0).2.store) :=
  storageStore_budget_invariant dWitEx 2 (Value.mk 7 3) 0 (by decide)

/-- Counterexample to C1 as stated: with the budget exhausted
(`total_store_size = max_store_size = 10`), storing a smaller value
whose id is already present for the key is accepted and changes the
stored sizes, so the claim that every incoming value is rejected when
the budget is exhausted fails. -/
theorem storageStore_full_shrinking_edit_accepted :
    dFullEx.max_store_size ≤ dFullEx.total_store_size ∧
    (dFullEx.storageStore 1 (Value.mk 5 4) 7).1 = true ∧
    (dFullEx.storageStore 1 (Value.mk 5 4) 7).2.total_store_size ≠
      dFullEx.total_store_size := by
  decide

/-- C2: a token minted for a remote address under the current secret is
accepted by `tokenMatch` while zero or one `rotateSecrets` calls have
occurred since (with ~15-minute rotation: at `t = 10 min`, zero
rotations, and at `t = 20 min`, one rotation), and is rejected once two
or more rotations have occurred (at `t = 40 min`, two rotations),
provided the freshly drawn secrets differ from the minting secret. -/
theorem tokenMatch_rotation (s : Secrets) (sa : Nat) (fresh : Nat → Nat)
    (hfresh : ∀ i, fresh i ≠ s.secret) :
    tokenMatch s (makeToken s sa false) sa = true ∧
    tokenMatch (secretsAfter s fresh (rotationsAt (10 * 60)))
      (makeToken s sa false) sa = true ∧
    tokenMatch (secretsAfter s fresh (rotationsAt (20 * 60)))
      (makeToken s sa false) sa = true ∧
    (∀ k, 2 ≤ k →
      tokenMatch (secretsAfter s fresh k) (makeToken s sa false) sa = false) ∧
    tokenMatch (secretsAfter s fresh (rotationsAt (40 * 60)))
      (makeToken s sa false) sa = false := by
  have h10 : rotationsAt (10 * 60) = 0 := by decide
  have h20 : rotationsAt (20 * 60) = 1 := by decide
  have h40 : rotationsAt (40 * 60) = 2 := by decide
  have hk : ∀ k, 2 ≤ k →
      tokenMatch (secretsAfter s fresh k) (makeToken s sa false) sa = false := by
    intro k hk2
    obtain ⟨m, rfl⟩ : ∃ m, k = m + 2 := ⟨k - 2, by omega⟩
    have hsec : (secretsAfter s fresh (m + 2)).secret = fresh (m + 1) := rfl
    have hold : (secretsAfter s fresh (m + 2)).oldsecret = fresh m := rfl
    simp [tokenMatch, makeToken, makeTokenWith, hsec, hold, Prod.ext_iff]
    exact ⟨fun h => hfresh (m + 1) h.symm, fun h => hfresh m h.symm⟩
  refine ⟨?_, ?_, ?_, hk, ?_⟩
  · simp [tokenMatch, makeToken, makeTokenWith]
  · rw [h10]
    simp [tokenMatch, makeToken, makeTokenWith, secretsAfter]
  · rw [h20]
    simp [tokenMatch, makeToken, makeTokenWith, secretsAfter, rotateSecrets]
  · rw [h40]
    exact hk 2 le_rfl

/-- Witness for C2 at a concrete initial secret state, remote address
and stream of fresh secrets. -/
theorem tokenMatch_rotation_witness :
    tokenMatch ⟨0, 0⟩ (makeToken ⟨0, 0⟩ 42 false) 42 = true ∧
    tokenMatch (secretsAfter ⟨0, 0⟩ (fun i => i + 1) (rotationsAt (10 * 60)))
      (makeToken ⟨0, 0⟩ 42 false) 42 = true ∧
    tokenMatch (secretsAfter ⟨0, 0⟩ (fun i => i + 1) (rotationsAt (20 * 60)))
      (makeToken ⟨0, 0⟩ 42 false) 42 = true ∧
    (∀ k, 2 ≤ k →
      tokenMatch (secretsAfter ⟨0, 0⟩ (fun i => i + 1) k)
        (makeToken ⟨0, 0⟩ 42 false) 42 = false) ∧
    tokenMatch (secretsAfter ⟨0, 0⟩ (fun i => i + 1) (rotationsAt (40 * 60)))
      (makeToken ⟨0, 0⟩ 42 false) 42 = false :=
  tokenMatch_rotation ⟨0, 0⟩ 42 (fun i => i + 1)
    (fun i => Nat.succ_ne_zero i)

/-! Helper lemmas about frontier insertion. -/

theorem snIds_refresh (l : List SearchNode) (n : Node) (now : Int)
    (token : List Nat) :
    snIds (l.map fun sn => if sn.node.id == n.id then
      { sn with token := token, last_get_reply := now } else sn) = snIds l := by
  unfold snIds
  rw [List.map_map]
  apply List.map_congr_left
  intro sn _
  by_cases h : (sn.node.id == n.id) = true
  · simp only [Function.comp_apply, if_pos h]
  · simp only [Function.comp_apply, if_neg h]

theorem frontierSorted_insertAt (target : Nat) (x : SearchNode) :
    ∀ (l : List SearchNode), frontierSorted target l →
    frontierSorted target
      (l.take (l.findIdx fun sn =>
          decide (xorDist x.node.id target < xorDist sn.node.id target)) ++
        x :: l.drop (l.findIdx fun sn =>
          decide (xorDist x.node.id target < xorDist sn.node.id target))) := by
  intro l
  induction l with
  | nil =>
      intro _
      simp only [List.findIdx_nil, List.take_nil, List.drop_nil,
        List.nil_append]
      exact List.pairwise_singleton _ _
  | cons a l ih =>
      intro hs
      obtain ⟨ha, hl⟩ := List.pairwise_cons.mp hs
      by_cases hp : xorDist x.node.id target < xorDist a.node.id target
      · have hd : decide (xorDist x.node.id target <
            xorDist a.node.id target) = true := by simpa using hp
        simp only [List.findIdx_cons, hd, cond_true, List.take_zero,
          List.drop_zero, List.nil_append]
        refine List.pairwise_cons.mpr ⟨?_, hs⟩
        intro b hb
        rcases List.mem_cons.mp hb with rfl | hb
        · exact Nat.le_of_lt hp
        · exact Nat.le_trans (Nat.le_of_lt hp) (ha b hb)
      · have hd : decide (xorDist x.node.id target <
            xorDist a.node.id target) = false := by simpa using hp
        simp only [List.findIdx_cons, hd, cond_false, List.take_succ_cons,
          List.drop_succ_cons, List.cons_append]
        refine List.pairwise_cons.mpr ⟨?_, ih hl⟩
        intro b hb
        rcases List.mem_append.mp hb with hb | hb
        · exact ha b (List.mem_of_mem_take hb)
        · rcases List.mem_cons.mp hb with rfl | hb
          · exact Nat.le_of_not_lt hp
          · exact ha b (List.mem_of_mem_drop hb)

theorem mem_take_cons_insert {α : Type} (x : α) :
    ∀ (A : List α) (B : List α) (k : Nat), A.length < k →
      x ∈ (A ++ x :: B).take k := by
  intro A
  induction A with
  | nil =>
      intro B k hk
      match k, hk with
      | k + 1, _ =>
          rw [List.nil_append, List.take_succ_cons]
          exact List.mem_cons_self x _
  | cons a A ih =>
      intro B k hk
      match k, hk with
      | k + 1, hk =>
          rw [List.cons_append, List.take_succ_cons]
          exact List.mem_cons_of_mem a (ih B k (by simpa using hk))

/-- C4: frontier insertion, under the frontier invariants (sorted by XOR
distance to the target, at most `SEARCH_NODES = 14` entries). If an entry with `n`'s id is present, `Search::insertNode`
returns false and only refreshes that entry's token and reply time (the
frontier's node ids are unchanged). Otherwise, if the frontier holds 14
entries and `n` is farther from the target than every entry, the
insertion is refused with no change. Otherwise `n` is inserted at its
XOR-distance position: the call returns true and the new frontier is
sorted, holds at most 14 entries, and contains `n`. -/
theorem search_insertNode_spec (sr : Search) (n : Node) (now : Int)
    (token : List Nat) (hs : frontierSorted sr.id sr.nodes)
    (hlen : sr.nodes.length ≤ SEARCH_NODES) :
    ((∃ sn ∈ sr.nodes, sn.node.id = n.id) →
      (sr.insertNode n now token).1 = false ∧
      (sr.insertNode n now token).2.nodes =
        (sr.nodes.map fun sn => if sn.node.id == n.id then
          { sn with token := token, last_get_reply := now } else sn) ∧
      snIds (sr.insertNode n now token).2.nodes = snIds sr.nodes) ∧
    ((¬∃ sn ∈ sr.nodes, sn.node.id = n.id) →
      sr.nodes.length = SEARCH_NODES →
      (∀ sn ∈ sr.nodes, xorDist sn.node.id sr.id < xorDist n.id sr.id) →
      sr.insertNode n now token = (false, sr)) ∧
    ((¬∃ sn ∈ sr.nodes, sn.node.id = n.id) →
      ¬(sr.nodes.length = SEARCH_NODES ∧
        ∀ sn ∈ sr.nodes, xorDist sn.node.id sr.id < xorDist n.id sr.id) →
      (sr.insertNode n now token).1 = true ∧
      frontierSorted sr.id (sr.insertNode n now token).2.nodes ∧
      (sr.insertNode n now token).2.nodes.length ≤ SEARCH_NODES ∧
      n.id ∈ snIds (sr.insertNode n now token).2.nodes) := by
  refine ⟨?_, ?_, ?_⟩
  · intro hpresent
    unfold Search.insertNode
    rw [if_pos hpresent]
    exact ⟨rfl, rfl, snIds_refresh sr.nodes n now token⟩
  · intro habsent hfull hfar
    unfold Search.insertNode
    rw [if_neg habsent]
    have hpos : (sr.nodes.findIdx fun sn =>
        decide (xorDist n.id sr.id < xorDist sn.node.id sr.id)) =
        sr.nodes.length :=
      List.findIdx_eq_length_of_false fun sn hsn => by
        simpa using Nat.lt_asymm (hfar sn hsn)
    rw [if_pos ⟨hfull ▸ Nat.le_refl _, hpos⟩]
  · intro habsent hnotfull
    unfold Search.insertNode
    rw [if_neg habsent]
    have hple : (sr.nodes.findIdx fun sn =>
        decide (xorDist n.id sr.id < xorDist sn.node.id sr.id)) ≤
        sr.nodes.length := List.findIdx_le_length _
    have hcond : ¬(SEARCH_NODES ≤ sr.nodes.length ∧
        (sr.nodes.findIdx fun sn =>
          decide (xorDist n.id sr.id < xorDist sn.node.id sr.id)) =
          sr.nodes.length) := by
      rintro ⟨h14, hposl⟩
      apply hnotfull
      refine ⟨by omega, ?_⟩
      intro sn hsn
      have hfalse := List.findIdx_eq_length.mp hposl sn hsn
      have hle : xorDist sn.node.id sr.id ≤ xorDist n.id sr.id := by
        simpa using hfalse
      have hne : sn.node.id ≠ n.id := fun he => habsent ⟨sn, hsn, he⟩
      have hdne : xorDist sn.node.id sr.id ≠ xorDist n.id sr.id := by
        intro hde
        exact hne (Nat.xor_left_injective hde)
      omega
    rw [if_neg hcond]
    have hposlt : (sr.nodes.findIdx fun sn =>
        decide (xorDist n.id sr.id < xorDist sn.node.id sr.id)) <
        SEARCH_NODES := by
      by_contra hge
      push_neg at hge
      exact hcond ⟨by omega, by omega⟩
    refine ⟨rfl, ?_, ?_, ?_⟩
    · exact List.Pairwise.sublist (List.take_sublist _ _)
        (frontierSorted_insertAt sr.id
          ⟨n, now, none, none, [], token, false⟩ sr.nodes hs)
    · exact List.length_take_le _ _
    · have hx := mem_take_cons_insert
        (⟨n, now, none, none, [], token, false⟩ : SearchNode)
        (sr.nodes.take (sr.nodes.findIdx fun sn =>
          decide (xorDist n.id sr.id < xorDist sn.node.id sr.id)))
        (sr.nodes.drop (sr.nodes.findIdx fun sn =>
          decide (xorDist n.id sr.id < xorDist sn.node.id sr.id)))
        SEARCH_NODES
        (by
          rw [List.length_take]
          omega)
      exact List.mem_map_of_mem (fun sn => sn.node.id) hx

/-- Witness for C4 at a concrete search, inserting a fresh node into a
two-entry frontier. -/
theorem search_insertNode_spec_witness :
    ((∃ sn ∈ srEx.nodes, sn.node.id = (Node.mk 3 fun _ => false).id) →
      (srEx.insertNode (Node.mk 3 fun _ => false) 5 [9]).1 = false ∧
      (srEx.insertNode (Node.mk 3 fun _ => false) 5 [9]).2.nodes =
        (srEx.nodes.map fun sn =>
          if sn.node.id == (Node.mk 3 fun _ => false).id then
            { sn with token := [9], last_get_reply := 5 } else sn) ∧
      snIds (srEx.insertNode (Node.mk 3 fun _ => false) 5 [9]).2.nodes =
        snIds srEx.nodes) ∧
    ((¬∃ sn ∈ srEx.nodes, sn.node.id = (Node.mk 3 fun _ => false).id) →
      srEx.nodes.length = SEARCH_NODES →
      (∀ sn ∈ srEx.nodes, xorDist sn.node.id srEx.id <
        xorDist (Node.mk 3 fun _ => false).id srEx.id) →
      srEx.insertNode (Node.mk 3 fun _ => false) 5 [9] = (false, srEx)) ∧
    ((¬∃ sn ∈ srEx.nodes, sn.node.id = (Node.mk 3 fun _ => false).id) →
      ¬(srEx.nodes.length = SEARCH_NODES ∧
        ∀ sn ∈ srEx.nodes, xorDist sn.node.id srEx.id <
          xorDist (Node.mk 3 fun _ => false).id srEx.id) →
      (srEx.insertNode (Node.mk 3 fun _ => false) 5 [9]).1 = true ∧
      frontierSorted srEx.id
        (srEx.insertNode (Node.mk 3 fun _ => false) 5 [9]).2.nodes ∧
      (srEx.insertNode (Node.mk 3 fun _ => false) 5 [9]).2.nodes.length ≤
        SEARCH_NODES ∧
      (Node.mk 3 fun _ => false).id ∈
        snIds (srEx.insertNode (Node.mk 3 fun _ => false) 5 [9]).2.nodes) :=
  search_insertNode_spec srEx (Node.mk 3 fun _ => false) 5 [9]
    (by decide) (by decide)

/-! Helper lemmas about the routing table. -/

theorem RoutingTable.contains_le (t : List Bucket) (j id : Nat) (b : Bucket)
    (hb : t[j]? = some b) (h : RoutingTable.contains t j id = true) :
    b.first ≤ id := by
  unfold RoutingTable.contains at h
  rw [hb, Bool.and_eq_true] at h
  exact of_decide_eq_true h.1

theorem RoutingTable.contains_shift (b : Bucket) (t : List Bucket)
    (j id : Nat) :
    RoutingTable.contains (b :: t) (j + 1) id =
      RoutingTable.contains t j id := by
  unfold RoutingTable.contains
  simp only [List.getElem?_cons_succ]

theorem RoutingTable.contains_exists_unique :
    ∀ (rest : List Bucket) (b : Bucket) (id : Nat),
    List.Chain' (· < ·) (RoutingTable.firsts (b :: rest)) → b.first ≤ id →
    ∃! j, RoutingTable.contains (b :: rest) j id = true := by
  intro rest
  induction rest with
  | nil =>
      intro b id _ hb
      refine ⟨0, ?_, ?_⟩
      · simp [RoutingTable.contains, hb]
      · intro j hj
        match j, hj with
        | 0, _ => rfl
        | j + 1, hj => simp [RoutingTable.contains] at hj
  | cons nb rest ih =>
      intro b id hchain hb
      have hchain2 : b.first < nb.first ∧
          List.Chain' (· < ·) (RoutingTable.firsts (nb :: rest)) := by
        exact List.chain'_cons.mp (by simpa [RoutingTable.firsts] using hchain)
      by_cases hid : id < nb.first
      · refine ⟨0, ?_, ?_⟩
        · simp [RoutingTable.contains, hb, hid]
        · intro j hj
          match j, hj with
          | 0, _ => rfl
          | j + 1, hj =>
              exfalso
              replace hj : RoutingTable.contains (b :: nb :: rest) (j + 1) id =
                true := hj
              rw [RoutingTable.contains_shift] at hj
              obtain ⟨c, hc⟩ : ∃ c, (nb :: rest)[j]? = some c := by
                cases hcc : (nb :: rest)[j]? with
                | none =>
                    unfold RoutingTable.contains at hj
                    rw [hcc] at hj
                    exact absurd hj (by simp)
                | some c => exact ⟨c, rfl⟩
              have hcle := RoutingTable.contains_le (nb :: rest) j id c hc hj
              have hmem : c ∈ nb :: rest := by
                obtain ⟨hlt, rfl⟩ := List.getElem?_eq_some_iff.mp hc
                exact List.getElem_mem hlt
              have hnbc : nb.first ≤ c.first := by
                rcases List.mem_cons.mp hmem with rfl | hmem
                · exact Nat.le_refl _
                · have hpw := List.chain'_iff_pairwise.mp hchain2.2
                  have hpw' := (List.pairwise_cons.mp
                    (show List.Pairwise (· < ·)
                        (nb.first :: List.map (fun b => b.first) rest) from
                      by simpa [RoutingTable.firsts] using hpw)).1
                  exact Nat.le_of_lt (hpw' c.first
                    (List.mem_map_of_mem _ hmem))
              omega
      · push_neg at hid
        obtain ⟨j0, hj0, huniq⟩ := ih nb id hchain2.2 hid
        refine ⟨j0 + 1, ?_, ?_⟩
        · show RoutingTable.contains (b :: nb :: rest) (j0 + 1) id = true
          rw [RoutingTable.contains_shift]
          exact hj0
        · intro j hj
          match j, hj with
          | 0, hj =>
              exfalso
              simp [RoutingTable.contains] at hj
              omega
          | j + 1, hj =>
              replace hj : RoutingTable.contains (b :: nb :: rest) (j + 1) id =
                true := hj
              rw [RoutingTable.contains_shift] at hj
              exact congrArg (· + 1) (huniq j hj)

theorem RoutingTable.split_cb (t : List Bucket) :
    ∀ (j : Nat), RoutingTable.cb t →
    RoutingTable.cb (RoutingTable.split t j).2 ∧
    (RoutingTable.firsts (RoutingTable.split t j).2).head? =
      (RoutingTable.firsts t).head? := by
  induction t with
  | nil =>
      intro j h
      exact ⟨h, rfl⟩
  | cons b rest ih =>
      intro j hcb
      obtain ⟨hch, hbd⟩ := hcb
      match j with
      | 0 =>
          cases rest with
          | nil =>
              by_cases hc : b.first < (b.first + ID_SPACE) / 2 ∧
                  (b.first + ID_SPACE) / 2 < ID_SPACE
              · simp only [RoutingTable.split, RoutingTable.splitBucket,
                  List.head?_nil]
                rw [if_pos hc]
                refine ⟨⟨?_, ?_⟩, rfl⟩
                · exact List.chain'_cons.mpr ⟨hc.1, List.chain'_singleton _⟩
                · intro x hx
                  simp [RoutingTable.firsts] at hx
                  rcases hx with rfl | rfl
                  · exact hbd b.first (by simp [RoutingTable.firsts])
                  · exact hc.2
              · simp only [RoutingTable.split, RoutingTable.splitBucket,
                  List.head?_nil]
                rw [if_neg hc]
                exact ⟨⟨hch, hbd⟩, rfl⟩
          | cons nb rest2 =>
              by_cases hc : b.first < (b.first + nb.first) / 2 ∧
                  (b.first + nb.first) / 2 < nb.first
              · simp only [RoutingTable.split, RoutingTable.splitBucket,
                  List.head?_cons]
                rw [if_pos hc]
                have hch' := List.chain'_cons.mp
                  (by simpa [RoutingTable.firsts] using hch)
                refine ⟨⟨?_, ?_⟩, rfl⟩
                · refine List.chain'_cons.mpr ⟨hc.1, ?_⟩
                  refine List.chain'_cons.mpr ⟨hc.2, ?_⟩
                  simpa [RoutingTable.firsts] using hch'.2
                · intro x hx
                  simp only [RoutingTable.firsts, List.map_cons,
                    List.mem_cons] at hx
                  rcases hx with rfl | rfl | hx2
                  · exact hbd b.first (by simp [RoutingTable.firsts])
                  · exact Nat.lt_trans hc.2
                      (hbd nb.first (by simp [RoutingTable.firsts]))
                  · exact hbd x (by
                      simp only [RoutingTable.firsts, List.map_cons,
                        List.mem_cons]
                      exact Or.inr hx2)
              · simp only [RoutingTable.split, RoutingTable.splitBucket,
                  List.head?_cons]
                rw [if_neg hc]
                exact ⟨⟨hch, hbd⟩, rfl⟩
      | j + 1 =>
          have hchb := List.chain'_cons'.mp
            (by simpa [RoutingTable.firsts] using hch)
          obtain ⟨ih1, ih2⟩ := ih j ⟨hchb.2,
            fun x hx => hbd x (by
              simp only [RoutingTable.firsts, List.map_cons, List.mem_cons]
              exact Or.inr (by simpa [RoutingTable.firsts] using hx))⟩
          refine ⟨⟨?_, ?_⟩, ?head⟩
          case head =>
            show (RoutingTable.firsts
                (b :: (RoutingTable.split rest j).2)).head? =
              (RoutingTable.firsts (b :: rest)).head?
            simp [RoutingTable.firsts]
          · show List.Chain' (· < ·)
              (RoutingTable.firsts (b :: (RoutingTable.split rest j).2))
            have : RoutingTable.firsts (b :: (RoutingTable.split rest j).2) =
                b.first :: RoutingTable.firsts (RoutingTable.split rest j).2 := by
              simp [RoutingTable.firsts]
            rw [this]
            refine List.chain'_cons'.mpr ⟨?_, ih1.1⟩
            intro y hy
            rw [ih2] at hy
            exact hchb.1 y (by simpa [RoutingTable.firsts] using hy)
          · intro x hx
            replace hx : x ∈ RoutingTable.firsts
                (b :: (RoutingTable.split rest j).2) := hx
            have heq : RoutingTable.firsts
                (b :: (RoutingTable.split rest j).2) =
                b.first :: RoutingTable.firsts (RoutingTable.split rest j).2 := by
              simp [RoutingTable.firsts]
            rw [heq] at hx
            rcases List.mem_cons.mp hx with rfl | hx
            · exact hbd b.first (by simp [RoutingTable.firsts])
            · exact ih1.2 x hx

theorem RoutingTable.addToBucket_firsts :
    ∀ (t : List Bucket) (j nid : Nat),
    RoutingTable.firsts (RoutingTable.addToBucket t j nid) =
      RoutingTable.firsts t := by
  intro t
  induction t with
  | nil => intro j nid; rfl
  | cons b rest ih =>
      intro j nid
      match j with
      | 0 => simp [RoutingTable.addToBucket, RoutingTable.firsts]
      | j + 1 =>
          show RoutingTable.firsts
            (b :: RoutingTable.addToBucket rest j nid) = _
          simp only [RoutingTable.firsts, List.map_cons]
          rw [show List.map (fun b => b.first)
            (RoutingTable.addToBucket rest j nid) =
            RoutingTable.firsts (RoutingTable.addToBucket rest j nid) from rfl]
          rw [ih j nid]
          rfl

/-- C7: under the routing-table invariant (`RoutingTable.wf`: the ordered
bucket lower bounds are strictly increasing within the identifier space
and start at 0, so the buckets are non-overlapping half-open ranges
covering the whole space, adjacent buckets sharing their boundary),
every 160-bit identifier is contained in exactly one bucket in the sense
of `RoutingTable::contains`, and the invariant is preserved both by
`RoutingTable::split` and by inserting a node into a bucket (which never
changes a bucket boundary). -/
theorem routing_coverage_and_split (t : List Bucket) (id j nid : Nat)
    (hwf : RoutingTable.wf t) (_hid : id < ID_SPACE) :
    (∃! k, RoutingTable.contains t k id = true) ∧
    RoutingTable.wf (RoutingTable.split t j).2 ∧
    RoutingTable.wf (RoutingTable.addToBucket t j nid) := by
  obtain ⟨h0, hch, hbd⟩ := hwf
  refine ⟨?_, ?_, ?_⟩
  · cases t with
    | nil => simp [RoutingTable.firsts] at h0
    | cons b rest =>
        have hb0 : b.first = 0 := by
          simpa [RoutingTable.firsts] using h0
        exact RoutingTable.contains_exists_unique rest b id hch (by omega)
  · obtain ⟨hcb, hhead⟩ := RoutingTable.split_cb t j ⟨hch, hbd⟩
    exact ⟨by rw [hhead]; exact h0, hcb.1, hcb.2⟩
  · have hf := RoutingTable.addToBucket_firsts t j nid
    exact ⟨by rw [hf]; exact h0, by rw [hf]; exact hch,
      by rw [hf]; exact hbd⟩

/-- Witness for C7 at a concrete two-bucket table, identifier, split
index and inserted node id. -/
theorem routing_coverage_and_split_witness :
    (∃! k, RoutingTable.contains rtEx k 1 = true) ∧
    RoutingTable.wf (RoutingTable.split rtEx 1).2 ∧
    RoutingTable.wf (RoutingTable.addToBucket rtEx 1 7) :=
  routing_coverage_and_split rtEx 1 1 7
    ⟨rfl, List.chain'_cons.mpr ⟨by decide, List.chain'_singleton _⟩, by decide⟩
    (by decide)

end dht
